import Mathlib

/-!
Verification development for the short-form video synthesis pipeline of the
Corazón Studio backend (`src/main.py`).  The Python source is shallowly
embedded below: pure helpers become Lean functions on `List Char` / `String`,
floating-point arithmetic on animation progress is carried out exactly in `ℚ`
(the Python literals 1.2, 0.92, 0.10, 0.65, 0.25 are all decimal and are
represented by the same rationals), machine effects (files written, the
external ffmpeg engine, the TTS network call) are made explicit as data.
-/

set_option maxHeartbeats 1000000
set_option linter.unusedVariables false

namespace Corazon

/-! ### Character-level helpers

`pyLower` models Python's `str.lower()` on the Basic Latin and Latin-1
ranges (the only cased code points reachable here: the keyword tables of
`_auto_emojis` are Spanish words over a-z plus ñ, ó, á, í; emoji and
punctuation are case-less and left unchanged by `str.lower()` as well). -/

def pyLower (c : Char) : Char :=
  if 65 ≤ c.toNat ∧ c.toNat ≤ 90 then Char.ofNat (c.toNat + 32)
  else if 192 ≤ c.toNat ∧ c.toNat ≤ 222 ∧ c.toNat ≠ 215 then Char.ofNat (c.toNat + 32)
  else c

def lowerStr (s : List Char) : List Char := s.map pyLower

/-- Python `k in t` (contiguous-substring test), head-anchored matcher:
`matchesAt k t` holds when `k` is a leading segment of `t`. -/
def matchesAt : List Char → List Char → Bool
  | [], _ => true
  | _ :: _, [] => false
  | p :: ps, c :: cs => p == c && matchesAt ps cs

/-- Python `k in t`: `k` occurs contiguously somewhere in `t`. -/
def hasSubstr : List Char → List Char → Bool
  | [], k => matchesAt k []
  | c :: ts, k => matchesAt k (c :: ts) || hasSubstr ts k

/-- Python `any(k in t for k in ks)` as used in `_auto_emojis`. -/
def hitsAny (t : List Char) (ks : List (List Char)) : Bool :=
  ks.any (fun k => hasSubstr t k)

/-! ### The emoji augmentation of `_auto_emojis` (src/main.py:180-197) -/

def faithKeys : List (List Char) :=
  ["dios".data, "fe".data, "cristo".data, "señor".data, "oración".data, "oracion".data]

def blessKeys : List (List Char) :=
  ["bendición".data, "bendicion".data, "milagro".data]

def loveKeys : List (List Char) :=
  ["amor".data, "familia".data, "hijo".data, "hija".data]

def strengthKeys : List (List Char) :=
  ["fuerza".data, "valiente".data, "ánimo".data, "animo".data, "sigue".data]

/-- Python `list(dict.fromkeys(picks))`: keep the first occurrence of each
element, in order.  The accumulator holds the elements already seen. -/
def dedupFirstAux : List String → List String → List String
  | [], _ => []
  | x :: xs, seen =>
    if x ∈ seen then dedupFirstAux xs seen
    else x :: dedupFirstAux xs (x :: seen)

def dedupFirst (l : List String) : List String := dedupFirstAux l []

/-- Python `' '.join(parts)`. -/
def joinSpace : List String → String
  | [] => ""
  | [x] => x
  | x :: y :: xs => x ++ " " ++ joinSpace (y :: xs)

/-- The emoji pick list computed by `_auto_emojis` before appending:
the four keyword groups are scanned over the lowercased text, their
contributions concatenated in source order, deduplicated keeping first
occurrences, and truncated to two. -/
def autoEmojiPicks (text : List Char) : List String :=
  let t := lowerStr text
  let picks :=
    (if hitsAny t faithKeys then ["🙏", "✨"] else []) ++
    (if hitsAny t blessKeys then ["🙌"] else []) ++
    (if hitsAny t loveKeys then ["❤️"] else []) ++
    (if hitsAny t strengthKeys then ["💪", "🔥"] else [])
  (dedupFirst picks).take 2

/-- Python `_auto_emojis(text)`: append the joined picks (when any) to the text. -/
def autoEmojis (text : String) : String :=
  let picks := autoEmojiPicks text.data
  if picks.isEmpty then text else text ++ " " ++ joinSpace picks

/-! ### Text layout: `_wrap_text` (src/main.py:162-178)

The Pillow measurement `draw.textbbox(...)[2] - draw.textbbox(...)[0]` is an
external capability; it enters the embedding as an arbitrary width function
`width : List Char → Nat`.  Every other step of the greedy word wrap is
translated literally. -/

def pyIsSpace (c : Char) : Bool :=
  c == ' ' || c == '\t' || c == '\n' || c == '\r' || c == '\x0b' || c == '\x0c'

/-- Python `str.split()`: split on whitespace runs, dropping empty pieces.
The accumulator holds the current word reversed. -/
def splitWordsAux : List Char → List Char → List (List Char)
  | [], acc => if acc.isEmpty then [] else [acc.reverse]
  | c :: cs, acc =>
    if pyIsSpace c then
      if acc.isEmpty then splitWordsAux cs [] else acc.reverse :: splitWordsAux cs []
    else splitWordsAux cs (c :: acc)

def splitWords (s : List Char) : List (List Char) := splitWordsAux s []

/-- Python `str.strip()` (whitespace from both ends). -/
def stripBoth (s : List Char) : List Char :=
  (((s.dropWhile pyIsSpace).reverse).dropWhile pyIsSpace).reverse

/-- The word loop of `_wrap_text`: `cur` is the line being built, `lines`
the closed lines, processed against the word list. -/
def wrapLoop (width : List Char → Nat) (maxWidth : Nat) :
    List (List Char) → List Char → List (List Char) → List (List Char)
  | [], cur, lines => if cur.isEmpty then lines else lines ++ [cur]
  | w :: ws, cur, lines =>
    let test := stripBoth (cur ++ ' ' :: w)
    if width test ≤ maxWidth then wrapLoop width maxWidth ws test lines
    else wrapLoop width maxWidth ws w (if cur.isEmpty then lines else lines ++ [cur])

/-- Python `_wrap_text(draw, text, font, max_width)`: greedy wrap then `lines[:8]`. -/
def wrapText (width : List Char → Nat) (text : List Char) (maxWidth : Nat) :
    List (List Char) :=
  (wrapLoop width maxWidth (splitWords text) [] []).take 8

/-! ### Frame rendering: `_draw_text_centered` (src/main.py:220-303)

Animation progress and the per-kind transforms are exact rational
computations; `pyInt` is Python's `int()` (truncation toward zero). -/

inductive Style where
  | inspirador
  | impactante
  | minimal
deriving DecidableEq

inductive Bg where
  | gradient
  | dark
  | light
deriving DecidableEq

inductive TextAnim where
  | fade
  | slide
  | zoom
deriving DecidableEq

inductive EmojiMode where
  | auto
  | off
deriving DecidableEq

def pyInt (q : ℚ) : ℤ := if 0 ≤ q then ⌊q⌋ else ⌈q⌉

/-- Python `frame_i / max(1, frames - 1)` (true division, exact in ℚ). -/
def progress (i frames : ℕ) : ℚ := (i : ℚ) / ((max 1 (frames - 1) : ℕ) : ℚ)

structure DrawParams where
  alpha : ℤ
  yOffset : ℤ
  scale : ℚ
deriving DecidableEq

/-- The per-animation transform of `_draw_text_centered`:
fade sets `alpha = int(255 * min(1.0, max(0.0, p * 1.2)))`, slide sets
`y_offset = int((1 - p) * 80)`, zoom sets `scale = 0.92 + p * 0.10`. -/
def animParams (anim : TextAnim) (i frames : ℕ) : DrawParams :=
  let p := progress i frames
  match anim with
  | .fade => ⟨pyInt (255 * min 1 (max 0 (p * 1.2))), 0, 1⟩
  | .slide => ⟨255, pyInt ((1 - p) * 80), 1⟩
  | .zoom => ⟨255, 0, 0.92 + p * 0.10⟩

structure RenderedFrame where
  index : ℕ
  params : DrawParams
  /-- drop-shadow alpha `int(alpha * 0.65)` -/
  shadowAlpha : ℤ
deriving DecidableEq

def renderFrame (anim : TextAnim) (i frames : ℕ) : RenderedFrame :=
  let prm := animParams anim i frames
  ⟨i, prm, pyInt ((prm.alpha : ℚ) * 0.65)⟩

/-! ### Video assembly: `make_reels_video_styled` (src/main.py:305-334) -/

/-- Python `frames = max(1, duration * fps)` at the fixed `fps = 24`. -/
def framesFor (duration : ℤ) : ℕ := (max 1 (duration * 24)).toNat

structure VideoAsset where
  width : ℕ
  height : ℕ
  fps : ℕ
  /-- the caption drawn on every frame (after optional emoji augmentation) -/
  caption : String
  frames : List RenderedFrame

def makeReelsVideoStyled (text : String) (duration : ℤ) (style : Style) (bg : Bg)
    (textAnim : TextAnim) (emojiMode : EmojiMode) : VideoAsset :=
  let n := framesFor duration
  let caption := if emojiMode = EmojiMode.auto then autoEmojis text else text
  { width := 720, height := 1280, fps := 24, caption := caption,
    frames := (List.range n).map (fun i => renderFrame textAnim i n) }

/-! ### Music lookup: `choose_music_path` (src/main.py:336-343) -/

inductive MusicKind where
  | none
  | soft
  | cinematic
  | happy
deriving DecidableEq

def musicSoftPath : String := "assets/music_soft.mp3"
def musicCinematicPath : String := "assets/music_cinematic.mp3"
def musicHappyPath : String := "assets/music_happy.mp3"

/-- Python `choose_music_path(kind)`; whether each mp3 exists on disk is an external
fact, passed in as the three booleans. -/
def chooseMusicPath (kind : MusicKind) (softE cinE hapE : Bool) : Option String :=
  if kind = MusicKind.soft ∧ softE = true then some musicSoftPath
  else if kind = MusicKind.cinematic ∧ cinE = true then some musicCinematicPath
  else if kind = MusicKind.happy ∧ hapE = true then some musicHappyPath
  else Option.none

/-! ### Media compositor: `mux_video_audio` (src/main.py:397-450)

The function drives the external ffmpeg engine; the embedding records the
exact argument vector it builds in each of the four cases, or the fact
that it byte-copies the silent video when no audio is requested. -/

def ffmpegPath : String := "ffmpeg"

/-- The filter graph of the voice + music case: the music input `[2:a]` is
attenuated to volume 0.25, sidechain-compressed against the voice `[1:a]`
(threshold 0.03, ratio 10, attack 20 ms, release 250 ms), and the ducked
music is mixed with the voice, shortest-input semantics. -/
def duckFilterSpec : String :=
  "[2:a]volume=0.25[m];[m][1:a]sidechaincompress=threshold=0.03:ratio=10:attack=20:release=250[mduck];[1:a][mduck]amix=inputs=2:duration=shortest[aout]"

inductive MuxAction where
  | runFfmpeg (args : List String)
  | copyVideoBytes
deriving DecidableEq

def muxVideoAudio (videoPath : String) (voicePath musicPath : Option String)
    (outPath : String) : MuxAction :=
  match voicePath, musicPath with
  | some vp, some mp =>
    .runFfmpeg [ffmpegPath, "-y", "-i", videoPath, "-i", vp,
      "-stream_loop", "-1", "-i", mp,
      "-filter_complex", duckFilterSpec,
      "-map", "0:v:0", "-map", "[aout]", "-shortest",
      "-c:v", "copy", "-c:a", "aac", outPath]
  | some vp, Option.none =>
    .runFfmpeg [ffmpegPath, "-y", "-i", videoPath, "-i", vp,
      "-map", "0:v:0", "-map", "1:a:0", "-shortest",
      "-c:v", "copy", "-c:a", "aac", outPath]
  | Option.none, some mp =>
    .runFfmpeg [ffmpegPath, "-y", "-i", videoPath,
      "-stream_loop", "-1", "-i", mp,
      "-map", "0:v:0", "-map", "1:a:0", "-shortest",
      "-c:v", "copy", "-c:a", "aac", outPath]
  | Option.none, Option.none => .copyVideoBytes

/-- Modelled from the spec: the external media engine (ffmpeg) is not part of
this repository; the spec describes it only at the interface boundary.  An
invocation carrying the "-shortest" output flag truncates the output to the
shortest input stream, so the produced duration is the minimum of the video
and audio durations; without the flag the longest stream governs. -/
def engineOutputDuration (args : List String) (videoDur audioDur : ℚ) : ℚ :=
  if "-shortest" ∈ args then min videoDur audioDur else max videoDur audioDur

/-- Output bytes of the compositor: an ffmpeg run produces whatever the
external engine produces for its argument vector; the no-audio case writes
`video_path.read_bytes()` verbatim. -/
def muxOutputBytes (videoBytes : List ℕ) (engine : List String → List ℕ) :
    MuxAction → List ℕ
  | .runFfmpeg args => engine args
  | .copyVideoBytes => videoBytes

/-! ### Orchestration effects

`/reels` and `/reels-voice` sequence rendering, speech synthesis and muxing;
the embedding tracks which scratch/output files each request writes and
whether it raises.  `openai_tts_to_file` (src/main.py:345-373) raises
`RuntimeError("OPENAI_API_KEY no configurada")` before doing anything when
the credential is absent, and otherwise writes its output file. -/

inductive PipeError where
  | configError (msg : String)
deriving DecidableEq

inductive AssetKind where
  | silentVideo
  | narratorClip
  | characterClip
  | voiceTrack
  | musicMuxVideo
  | finalVideo
deriving DecidableEq

def openaiTtsToFile (apiKeyPresent : Bool) (written : AssetKind)
    (files : List AssetKind) : Except PipeError (List AssetKind) :=
  if apiKeyPresent then Except.ok (files ++ [written])
  else Except.error (PipeError.configError "OPENAI_API_KEY no configurada")

inductive NarrationMode where
  | narratorOnly
  | narratorPlusCharacter
deriving DecidableEq

/-- The `/reels` endpoint (src/main.py:556-583): render the styled video,
then, when a music file is available, mux it in and return the muxed file,
otherwise return the silent video.  No input validation exists on this
path.  The pair is (rendered video, files written into OUT_DIR). -/
def reelsEndpoint (text : String) (duration : ℤ) (style : Style) (bg : Bg)
    (anim : TextAnim) (em : EmojiMode) (music : MusicKind)
    (softE cinE hapE : Bool) : VideoAsset × List AssetKind :=
  let video := makeReelsVideoStyled text duration style bg anim em
  match chooseMusicPath music softE cinE hapE with
  | some _ => (video, [AssetKind.silentVideo, AssetKind.musicMuxVideo])
  | Option.none => (video, [AssetKind.silentVideo])

structure ReelsVoiceTrace where
  baseVideo : VideoAsset
  /-- files present in OUT_DIR when the request finishes (or fails) -/
  files : List AssetKind
  outcome : Except PipeError AssetKind

/-- The `/reels-voice` endpoint (src/main.py:606-649): (1) render and write
the silent styled video, (2) synthesize the voice (one clip, or two clips
concatenated into a voice track), (3) look up music, (4) mux.  Step (2) is
where a missing OPENAI_API_KEY raises; the silent video of step (1) has
already been written at that point. -/
def reelsVoiceRun (apiKeyPresent : Bool) (text : String) (duration : ℤ)
    (mode : NarrationMode) (music : MusicKind) (softE cinE hapE : Bool)
    (style : Style) (bg : Bg) (anim : TextAnim) (em : EmojiMode) :
    ReelsVoiceTrace :=
  let base := makeReelsVideoStyled text duration style bg anim em
  let files0 := [AssetKind.silentVideo]
  let voiceStep : Except PipeError (List AssetKind) :=
    match mode with
    | .narratorPlusCharacter =>
      match openaiTtsToFile apiKeyPresent AssetKind.narratorClip files0 with
      | Except.error e => Except.error e
      | Except.ok files1 =>
        match openaiTtsToFile apiKeyPresent AssetKind.characterClip files1 with
        | Except.error e => Except.error e
        | Except.ok files2 => Except.ok (files2 ++ [AssetKind.voiceTrack])
    | .narratorOnly => openaiTtsToFile apiKeyPresent AssetKind.voiceTrack files0
  match voiceStep with
  | Except.error e => ⟨base, files0, Except.error e⟩
  | Except.ok files =>
    let musicPath := chooseMusicPath music softE cinE hapE
    ⟨base, files ++ [AssetKind.finalVideo], Except.ok AssetKind.finalVideo⟩

/-! ### Verification vocabulary -/

/-- Every emoji `_auto_emojis` can ever pick, in source order. -/
def emojiPool : List String := ["🙏", "✨", "🙌", "❤️", "💪", "🔥"]

/-- The characters that can occur in an appended emoji suffix: the joining
space and the code points of the pool emoji. -/
def emojiPoolChars : List Char := ' ' :: (joinSpace emojiPool).data

/-! ## Helper lemmas -/

theorem space_data : (" " : String).data = [' '] := rfl

theorem mem_if_nil {c : Prop} [Decidable c] {L : List String} {x : String}
    (h : x ∈ if c then L else []) : x ∈ L := by
  by_cases hc : c
  · rwa [if_pos hc] at h
  · rw [if_neg hc] at h
    simp at h

theorem dedupFirstAux_subset :
    ∀ (l seen : List String) (x : String), x ∈ dedupFirstAux l seen → x ∈ l := by
  intro l
  induction l with
  | nil => intro seen x hx; simp [dedupFirstAux] at hx
  | cons y ys ih =>
    intro seen x hx
    simp only [dedupFirstAux] at hx
    by_cases hy : y ∈ seen
    · rw [if_pos hy] at hx
      exact List.mem_cons_of_mem _ (ih seen x hx)
    · rw [if_neg hy] at hx
      rcases List.mem_cons.mp hx with rfl | hx'
      · exact List.mem_cons_self _ _
      · exact List.mem_cons_of_mem _ (ih (y :: seen) x hx')

theorem dedupFirstAux_not_mem :
    ∀ (l seen : List String) (x : String), x ∈ seen → x ∉ dedupFirstAux l seen := by
  intro l
  induction l with
  | nil => intro seen x hx; simp [dedupFirstAux]
  | cons y ys ih =>
    intro seen x hx
    simp only [dedupFirstAux]
    by_cases hy : y ∈ seen
    · rw [if_pos hy]; exact ih seen x hx
    · rw [if_neg hy]
      intro hmem
      rcases List.mem_cons.mp hmem with rfl | hmem'
      · exact hy hx
      · exact ih (y :: seen) x (List.mem_cons_of_mem _ hx) hmem'

theorem dedupFirstAux_nodup : ∀ (l seen : List String), (dedupFirstAux l seen).Nodup := by
  intro l
  induction l with
  | nil => intro seen; simp [dedupFirstAux]
  | cons y ys ih =>
    intro seen
    simp only [dedupFirstAux]
    by_cases hy : y ∈ seen
    · rw [if_pos hy]; exact ih seen
    · rw [if_neg hy]
      exact List.nodup_cons.mpr
        ⟨dedupFirstAux_not_mem ys (y :: seen) y (List.mem_cons_self _ _), ih (y :: seen)⟩

theorem autoEmojiPicks_subset_pool (t : List Char) :
    ∀ x ∈ autoEmojiPicks t, x ∈ emojiPool := by
  intro x hx
  simp only [autoEmojiPicks] at hx
  have hx1 := dedupFirstAux_subset _ _ _ (List.mem_of_mem_take hx)
  have hfaith : ∀ z ∈ (["🙏", "✨"] : List String), z ∈ emojiPool := by decide
  have hbless : ∀ z ∈ (["🙌"] : List String), z ∈ emojiPool := by decide
  have hlove : ∀ z ∈ (["❤️"] : List String), z ∈ emojiPool := by decide
  have hstr : ∀ z ∈ (["💪", "🔥"] : List String), z ∈ emojiPool := by decide
  rcases List.mem_append.mp hx1 with h | h
  · rcases List.mem_append.mp h with h' | h'
    · rcases List.mem_append.mp h' with h'' | h''
      · exact hfaith x (mem_if_nil h'')
      · exact hbless x (mem_if_nil h'')
    · exact hlove x (mem_if_nil h')
  · exact hstr x (mem_if_nil h)

theorem matchesAt_append (k : List Char) :
    ∀ t s, matchesAt k t = true → matchesAt k (t ++ s) = true := by
  induction k with
  | nil => intro t s h; rfl
  | cons p ps ih =>
    intro t s h
    cases t with
    | nil => simp [matchesAt] at h
    | cons c cs =>
      simp only [matchesAt, Bool.and_eq_true, beq_iff_eq] at h
      simp only [List.cons_append, matchesAt, Bool.and_eq_true, beq_iff_eq]
      exact ⟨h.1, ih cs s h.2⟩

theorem matchesAt_no_span (e : List Char) :
    ∀ k : List Char, ' ' ∉ k →
      ∀ t, matchesAt k (t ++ ' ' :: e) = true → matchesAt k t = true := by
  intro k
  induction k with
  | nil => intro _ t _; rfl
  | cons p ps ih =>
    intro hk t h
    cases t with
    | nil =>
      exfalso
      simp only [List.nil_append, matchesAt, Bool.and_eq_true, beq_iff_eq] at h
      exact hk (h.1 ▸ List.mem_cons_self _ _)
    | cons c cs =>
      simp only [List.cons_append, matchesAt, Bool.and_eq_true, beq_iff_eq] at h
      simp only [matchesAt, Bool.and_eq_true, beq_iff_eq]
      exact ⟨h.1, ih (fun hm => hk (List.mem_cons_of_mem _ hm)) cs h.2⟩

theorem hasSubstr_disjoint (k : List Char) (hk : k ≠ []) :
    ∀ e, (∀ c ∈ k, c ∉ e) → hasSubstr e k = false := by
  intro e
  induction e with
  | nil =>
    intro _
    cases k with
    | nil => simp at hk
    | cons p ps => rfl
  | cons c es ih =>
    intro hdisj
    have h2 : hasSubstr es k = false :=
      ih (fun x hx hxe => hdisj x hx (List.mem_cons_of_mem _ hxe))
    cases k with
    | nil => simp at hk
    | cons p ps =>
      have hp : p ≠ c := by
        intro hpc
        exact hdisj p (List.mem_cons_self _ _) (hpc ▸ List.mem_cons_self _ _)
      simp [hasSubstr, matchesAt, hp, h2]

theorem hasSubstr_append_sep (k : List Char) (hk : k ≠ []) (hsp : ' ' ∉ k)
    (e : List Char) (hdisj : ∀ c ∈ k, c ∉ e) :
    ∀ t, hasSubstr (t ++ ' ' :: e) k = hasSubstr t k := by
  intro t
  induction t with
  | nil =>
    simp only [List.nil_append]
    cases k with
    | nil => simp at hk
    | cons p ps =>
      have hp : p ≠ ' ' := fun h => hsp (h ▸ List.mem_cons_self _ _)
      have h2 : hasSubstr e (p :: ps) = false := hasSubstr_disjoint _ hk e hdisj
      simp [hasSubstr, matchesAt, hp, h2]
  | cons c ts ih =>
    simp only [List.cons_append, hasSubstr, ih]
    congr 1
    cases hm : matchesAt k (c :: ts) with
    | true =>
      have := matchesAt_append k (c :: ts) (' ' :: e) hm
      rwa [List.cons_append] at this
    | false =>
      cases hl : matchesAt k (c :: (ts ++ ' ' :: e)) with
      | true =>
        exfalso
        have := matchesAt_no_span e k hsp (c :: ts) (by rw [List.cons_append]; exact hl)
        rw [this] at hm
        exact Bool.true_eq_false.mp hm
      | false => rfl

theorem hitsAny_append_sep (t e : List Char) (ks : List (List Char))
    (hks : ∀ k ∈ ks, k ≠ [] ∧ ' ' ∉ k ∧ ∀ c ∈ k, c ∉ e) :
    hitsAny (t ++ ' ' :: e) ks = hitsAny t ks := by
  induction ks with
  | nil => rfl
  | cons k ks ih =>
    have hk := hks k (List.mem_cons_self _ _)
    have htail := ih (fun x hx => hks x (List.mem_cons_of_mem _ hx))
    simp only [hitsAny, List.any_cons] at htail ⊢
    rw [hasSubstr_append_sep k hk.1 hk.2.1 e hk.2.2 t, htail]

theorem emojiPool_chars_subset :
    ∀ x ∈ emojiPool, ∀ c ∈ x.data, c ∈ emojiPoolChars := by decide

theorem joinSpace_chars :
    ∀ ps : List String, (∀ x ∈ ps, x ∈ emojiPool) →
      ∀ c ∈ (joinSpace ps).data, c ∈ emojiPoolChars := by
  intro ps
  induction ps with
  | nil =>
    intro _ c hc
    simp only [joinSpace] at hc
    simp at hc
  | cons x xs ih =>
    intro hmem c hc
    cases xs with
    | nil =>
      simp only [joinSpace] at hc
      exact emojiPool_chars_subset x (hmem x (List.mem_cons_self _ _)) c hc
    | cons y ys =>
      simp only [joinSpace] at hc
      rw [String.data_append, String.data_append, space_data] at hc
      rcases List.mem_append.mp hc with h | h
      · rcases List.mem_append.mp h with h1 | h1
        · exact emojiPool_chars_subset x (hmem x (List.mem_cons_self _ _)) c h1
        · have : c = ' ' := by simpa using h1
          rw [this]
          exact List.mem_cons_self _ _
      · exact ih (fun z hz => hmem z (List.mem_cons_of_mem _ hz)) c h

theorem pyLower_fix_pool : ∀ c ∈ emojiPoolChars, pyLower c = c := by decide

theorem lowerStr_fixed (l : List Char) (h : ∀ c ∈ l, c ∈ emojiPoolChars) :
    lowerStr l = l := by
  induction l with
  | nil => rfl
  | cons c cs ih =>
    have hcs := ih (fun x hx => h x (List.mem_cons_of_mem _ hx))
    simp only [lowerStr, List.map_cons] at hcs ⊢
    rw [pyLower_fix_pool c (h c (List.mem_cons_self _ _)), hcs]

theorem faithKeys_sep : ∀ k ∈ faithKeys,
    k ≠ [] ∧ ' ' ∉ k ∧ ∀ c ∈ k, c ∉ emojiPoolChars := by decide

theorem blessKeys_sep : ∀ k ∈ blessKeys,
    k ≠ [] ∧ ' ' ∉ k ∧ ∀ c ∈ k, c ∉ emojiPoolChars := by decide

theorem loveKeys_sep : ∀ k ∈ loveKeys,
    k ≠ [] ∧ ' ' ∉ k ∧ ∀ c ∈ k, c ∉ emojiPoolChars := by decide

theorem strengthKeys_sep : ∀ k ∈ strengthKeys,
    k ≠ [] ∧ ' ' ∉ k ∧ ∀ c ∈ k, c ∉ emojiPoolChars := by decide

/-- Appending a space plus any suffix drawn from the emoji pool does not
change the emoji picks: none of the keyword groups can match into (or
across the boundary of) the appended material. -/
theorem autoEmojiPicks_stable (s : String) (picks : List String)
    (hp : ∀ x ∈ picks, x ∈ emojiPool) :
    autoEmojiPicks (s ++ " " ++ joinSpace picks).data = autoEmojiPicks s.data := by
  have hdata : (s ++ " " ++ joinSpace picks).data
      = s.data ++ ' ' :: (joinSpace picks).data := by
    rw [String.data_append, String.data_append, space_data, List.append_assoc]
    rfl
  rw [hdata]
  have hesub : ∀ c ∈ (joinSpace picks).data, c ∈ emojiPoolChars :=
    joinSpace_chars picks hp
  have hlow : lowerStr (s.data ++ ' ' :: (joinSpace picks).data)
      = lowerStr s.data ++ ' ' :: (joinSpace picks).data := by
    have hfix := lowerStr_fixed _ hesub
    simp only [lowerStr] at hfix ⊢
    simp only [List.map_append, List.map_cons, hfix]
    rfl
  have hdisj : ∀ ks : List (List Char),
      (∀ k ∈ ks, k ≠ [] ∧ ' ' ∉ k ∧ ∀ c ∈ k, c ∉ emojiPoolChars) →
      hitsAny (lowerStr s.data ++ ' ' :: (joinSpace picks).data) ks
        = hitsAny (lowerStr s.data) ks := by
    intro ks hks
    exact hitsAny_append_sep _ _ ks (fun k hkm =>
      ⟨(hks k hkm).1, (hks k hkm).2.1,
        fun c hc he => (hks k hkm).2.2 c hc (hesub c he)⟩)
  simp only [autoEmojiPicks, hlow,
    hdisj faithKeys faithKeys_sep, hdisj blessKeys blessKeys_sep,
    hdisj loveKeys loveKeys_sep, hdisj strengthKeys strengthKeys_sep]

/-- Unfolding of `autoEmojis` when the pick list is nonempty. -/
theorem autoEmojis_of_ne (t : String) (h : (autoEmojiPicks t.data).isEmpty = false) :
    autoEmojis t = t ++ " " ++ joinSpace (autoEmojiPicks t.data) := by
  simp [autoEmojis, h]

/-- Loop invariant of the greedy wrap: every line the loop ever closes
either passed the width check or is one of the words handed to the loop. -/
theorem wrapLoop_mem (width : List Char → ℕ) (maxWidth : ℕ) (allW : List (List Char)) :
    ∀ ws cur lines, (∀ w ∈ ws, w ∈ allW) →
      (∀ l ∈ lines, width l ≤ maxWidth ∨ l ∈ allW) →
      (cur = [] ∨ width cur ≤ maxWidth ∨ cur ∈ allW) →
      ∀ l ∈ wrapLoop width maxWidth ws cur lines, width l ≤ maxWidth ∨ l ∈ allW := by
  intro ws
  induction ws with
  | nil =>
    intro cur lines hws hlines hcur l hl
    simp only [wrapLoop] at hl
    by_cases hc : cur.isEmpty
    · rw [if_pos hc] at hl
      exact hlines l hl
    · rw [if_neg hc] at hl
      rcases List.mem_append.mp hl with h | h
      · exact hlines l h
      · have hlc : l = cur := by simpa using h
        subst hlc
        rcases hcur with rfl | h'
        · simp at hc
        · exact h'
  | cons w ws ih =>
    intro cur lines hws hlines hcur l hl
    simp only [wrapLoop] at hl
    by_cases ht : width (stripBoth (cur ++ ' ' :: w)) ≤ maxWidth
    · rw [if_pos ht] at hl
      exact ih _ _ (fun x hx => hws x (List.mem_cons_of_mem _ hx)) hlines
        (Or.inr (Or.inl ht)) l hl
    · rw [if_neg ht] at hl
      refine ih _ _ (fun x hx => hws x (List.mem_cons_of_mem _ hx)) ?_
        (Or.inr (Or.inr (hws w (List.mem_cons_self _ _)))) l hl
      intro x hx
      by_cases hc : cur.isEmpty
      · rw [if_pos hc] at hx
        exact hlines x hx
      · rw [if_neg hc] at hx
        rcases List.mem_append.mp hx with h | h
        · exact hlines x h
        · have hxc : x = cur := by simpa using h
          subst hxc
          rcases hcur with rfl | h'
          · simp at hc
          · exact h'

/-! ## Claim theorems -/

/-- C5: when both a voice track and a music track are present the compositor
runs the fixed ffmpeg recipe: music attenuated to volume 0.25, sidechain
compression against the voice with threshold 0.03, ratio 10, attack 20 ms,
release 250 ms, amix of voice and ducked music with shortest-duration
semantics, video stream-copied (`-c:v copy`), audio re-encoded to the fixed
codec aac, and under the modelled engine semantics the `-shortest` flag makes
the output duration min(video duration, audio duration). -/
theorem mux_voice_music_recipe (videoPath vp mp outPath : String)
    (videoDur audioDur : ℚ) :
    muxVideoAudio videoPath (some vp) (some mp) outPath =
      MuxAction.runFfmpeg [ffmpegPath, "-y", "-i", videoPath, "-i", vp,
        "-stream_loop", "-1", "-i", mp,
        "-filter_complex",
        "[2:a]volume=0.25[m];[m][1:a]sidechaincompress=threshold=0.03:ratio=10:attack=20:release=250[mduck];[1:a][mduck]amix=inputs=2:duration=shortest[aout]",
        "-map", "0:v:0", "-map", "[aout]", "-shortest",
        "-c:v", "copy", "-c:a", "aac", outPath] ∧
    engineOutputDuration [ffmpegPath, "-y", "-i", videoPath, "-i", vp,
        "-stream_loop", "-1", "-i", mp,
        "-filter_complex", duckFilterSpec,
        "-map", "0:v:0", "-map", "[aout]", "-shortest",
        "-c:v", "copy", "-c:a", "aac", outPath] videoDur audioDur
      = min videoDur audioDur := by
  constructor
  · rfl
  · rw [engineOutputDuration, if_pos]
    simp

/-- C9: with neither a voice track nor a music track, the compositor does not
invoke the engine at all; the produced bytes are exactly the input video's. -/
theorem mux_neither_byte_copy (videoPath outPath : String) (videoBytes : List ℕ)
    (engine : List String → List ℕ) :
    muxVideoAudio videoPath Option.none Option.none outPath = MuxAction.copyVideoBytes ∧
    muxOutputBytes videoBytes engine
      (muxVideoAudio videoPath Option.none Option.none outPath) = videoBytes :=
  ⟨rfl, rfl⟩

/-- C6: for every duration the renderer produces exactly max(1, d·24) frames,
and the frame count is never zero, so the assembler never receives an empty
frame sequence. -/
theorem rendered_frame_count (text : String) (d : ℤ) (style : Style) (bg : Bg)
    (anim : TextAnim) (em : EmojiMode) :
    (((makeReelsVideoStyled text d style bg anim em).frames.length : ℤ)
        = max 1 (d * 24)) ∧
    0 < (makeReelsVideoStyled text d style bg anim em).frames.length := by
  have hlen : (makeReelsVideoStyled text d style bg anim em).frames.length
      = framesFor d := by
    simp [makeReelsVideoStyled]
  have h1 : (1 : ℤ) ≤ max 1 (d * 24) := le_max_left _ _
  constructor
  · rw [hlen, framesFor, Int.toNat_of_nonneg (le_trans zero_le_one h1)]
  · rw [hlen, framesFor]
    have h2 : (1 : ℤ).toNat ≤ (max 1 (d * 24)).toNat := Int.toNat_le_toNat h1
    exact Nat.lt_of_lt_of_le Nat.zero_lt_one h2

/-- C4 counterexample: a `/reels-voice` request with the TTS credential
missing does fail with the ConfigurationError, but the claim's "no partial
asset produced" is false: the silent video has already been rendered and
written before the credential check runs, and it remains on disk. -/
theorem reels_voice_missing_key_partial :
    (reelsVoiceRun false "Hola" 6 NarrationMode.narratorOnly MusicKind.soft
        true true true Style.inspirador Bg.gradient TextAnim.fade
        EmojiMode.auto).outcome =
      Except.error (PipeError.configError "OPENAI_API_KEY no configurada") ∧
    (reelsVoiceRun false "Hola" 6 NarrationMode.narratorOnly MusicKind.soft
        true true true Style.inspirador Bg.gradient TextAnim.fade
        EmojiMode.auto).files = [AssetKind.silentVideo] :=
  ⟨rfl, rfl⟩

/-- C4 amended: for every `/reels-voice` request (all narration modes of this
endpoint synthesize speech), a missing OPENAI_API_KEY makes the request fail
with the ConfigurationError raised by the TTS adapter — but only after the
silent base video has been rendered, so exactly that partial asset has been
produced when the failure surfaces. -/
theorem reels_voice_missing_key_trace (text : String) (duration : ℤ)
    (mode : NarrationMode) (music : MusicKind) (softE cinE hapE : Bool)
    (style : Style) (bg : Bg) (anim : TextAnim) (em : EmojiMode) :
    (reelsVoiceRun false text duration mode music softE cinE hapE
        style bg anim em).outcome =
      Except.error (PipeError.configError "OPENAI_API_KEY no configurada") ∧
    (reelsVoiceRun false text duration mode music softE cinE hapE
        style bg anim em).files = [AssetKind.silentVideo] := by
  cases mode <;> exact ⟨rfl, rfl⟩

/-- C1 counterexample: a `/reels` request with duration 0 raises nothing:
one frame is rendered (the clamp `max(1, duration * fps)` fires) and the
silent-video asset is produced, contradicting "ValidationError before any
rendering work begins". -/
theorem reels_duration_zero_renders :
    (reelsEndpoint "Dios" 0 Style.inspirador Bg.gradient TextAnim.fade
        EmojiMode.auto MusicKind.none false false false).1.frames.length = 1 ∧
    (reelsEndpoint "Dios" 0 Style.inspirador Bg.gradient TextAnim.fade
        EmojiMode.auto MusicKind.none false false false).2 =
      [AssetKind.silentVideo] :=
  ⟨rfl, rfl⟩

/-- C1 amended: neither `/reels` nor `/reels-voice` validates the duration;
for duration 0 or negative no error is raised — the frame count is clamped
to max(1, 24·d) = 1, a one-frame video is rendered by both endpoints, and
`/reels` still produces its asset file(s). -/
theorem duration_nonpositive_clamped (text : String) (d : ℤ) (hd : d ≤ 0)
    (style : Style) (bg : Bg) (anim : TextAnim) (em : EmojiMode)
    (music : MusicKind) (softE cinE hapE : Bool) (apiKeyPresent : Bool)
    (mode : NarrationMode) :
    (reelsEndpoint text d style bg anim em music softE cinE hapE).1.frames.length = 1 ∧
    (reelsEndpoint text d style bg anim em music softE cinE hapE).2 ≠ [] ∧
    (reelsVoiceRun apiKeyPresent text d mode music softE cinE hapE
        style bg anim em).baseVideo.frames.length = 1 := by
  have hf : framesFor d = 1 := by
    rw [framesFor]
    have h24 : d * 24 ≤ 1 := by nlinarith
    rw [max_eq_left h24]
    rfl
  refine ⟨?_, ?_, ?_⟩
  · cases hm : chooseMusicPath music softE cinE hapE <;>
      simp [reelsEndpoint, hm, makeReelsVideoStyled, hf]
  · cases hm : chooseMusicPath music softE cinE hapE <;>
      simp [reelsEndpoint, hm]
  · cases mode <;> cases apiKeyPresent <;>
      simp [reelsVoiceRun, openaiTtsToFile, makeReelsVideoStyled, hf]

/-- C1 amended, witness at duration -2. -/
theorem duration_nonpositive_clamped_witness :
    ((-2 : ℤ) ≤ 0) ∧
    (reelsEndpoint "Hola" (-2) Style.minimal Bg.dark TextAnim.slide EmojiMode.off
        MusicKind.soft true true true).1.frames.length = 1 :=
  ⟨by norm_num,
    (duration_nonpositive_clamped "Hola" (-2) (by norm_num) Style.minimal Bg.dark
      TextAnim.slide EmojiMode.off MusicKind.soft true true true true
      NarrationMode.narratorOnly).1⟩

/-- C2 counterexample: the text "dios" triggers only the faith keyword group
(the other three groups do not hit), yet both 🙏 and ✨ are appended — a
single category contributes two emoji, refuting "each category contributes
at most one emoji to the appended set". -/
theorem faith_group_two_emoji :
    autoEmojis "dios" = "dios 🙏 ✨" ∧
    autoEmojiPicks "dios".data = ["🙏", "✨"] ∧
    hitsAny (lowerStr "dios".data) blessKeys = false ∧
    hitsAny (lowerStr "dios".data) loveKeys = false ∧
    hitsAny (lowerStr "dios".data) strengthKeys = false := by
  refine ⟨?_, ?_, ?_, ?_, ?_⟩ <;> decide

/-- C2 amended: auto-mode appends at most two distinct emoji to the end of
the text; a single keyword group may however contribute both of them (the
faith group carries 🙏 and ✨, the encouragement group 💪 and 🔥). -/
theorem auto_emojis_at_most_two (s : String) :
    (autoEmojiPicks s.data).length ≤ 2 ∧
    (autoEmojiPicks s.data).Nodup ∧
    ∃ rest : List Char, (autoEmojis s).data = s.data ++ rest := by
  refine ⟨?_, ?_, ?_⟩
  · simp only [autoEmojiPicks]
    exact List.length_take_le _ _
  · simp only [autoEmojiPicks]
    exact (List.take_sublist _ _).nodup (dedupFirstAux_nodup _ _)
  · rw [autoEmojis]
    by_cases h : (autoEmojiPicks s.data).isEmpty
    · rw [if_pos h]
      exact ⟨[], by simp⟩
    · rw [if_neg h]
      refine ⟨' ' :: (joinSpace (autoEmojiPicks s.data)).data, ?_⟩
      rw [String.data_append, String.data_append, space_data, List.append_assoc]
      rfl

/-- C3 counterexample: running auto-mode augmentation twice duplicates the
faith-category emoji — the second run appends 🙏 ✨ again instead of leaving
the already-augmented text alone. -/
theorem auto_emojis_twice_duplicates :
    autoEmojis "dios" = "dios 🙏 ✨" ∧
    autoEmojis (autoEmojis "dios") = "dios 🙏 ✨ 🙏 ✨" := by
  constructor <;> decide

/-- C3 amended: auto-mode augmentation is NOT idempotent.  The emoji picks
of the augmented text are exactly those of the original text (the appended
suffix cannot trigger any keyword group), so whenever the first run appended
emoji, the second run appends the same emoji set — and hence every appended
category — a second time. -/
theorem auto_emojis_double_append (s : String) (h : autoEmojiPicks s.data ≠ []) :
    autoEmojis (autoEmojis s) =
      s ++ " " ++ joinSpace (autoEmojiPicks s.data)
        ++ " " ++ joinSpace (autoEmojiPicks s.data) := by
  have hne : (autoEmojiPicks s.data).isEmpty = false := by
    cases hc : autoEmojiPicks s.data with
    | nil => exact absurd hc h
    | cons a l => rfl
  have h1 : autoEmojis s = s ++ " " ++ joinSpace (autoEmojiPicks s.data) :=
    autoEmojis_of_ne s hne
  have hstable : autoEmojiPicks (autoEmojis s).data = autoEmojiPicks s.data := by
    rw [h1]
    exact autoEmojiPicks_stable s _ (autoEmojiPicks_subset_pool s.data)
  rw [autoEmojis_of_ne (autoEmojis s) (by rw [hstable]; exact hne), hstable, h1]

/-- C3 amended, witness at "dios". -/
theorem auto_emojis_double_append_witness :
    (autoEmojiPicks "dios".data ≠ []) ∧
    autoEmojis (autoEmojis "dios") =
      "dios" ++ " " ++ joinSpace (autoEmojiPicks "dios".data)
        ++ " " ++ joinSpace (autoEmojiPicks "dios".data) :=
  ⟨by decide, auto_emojis_double_append "dios" (by decide)⟩

/-- C7: for every width measurement, input text and maximum width, the wrap
emits at most 8 lines (text beyond the cap is dropped), and every emitted
line either measures within the maximum width or is a single word of the
input that is itself wider than the maximum width (and thus stands alone on
its line). -/
theorem wrap_lines_fit_and_capped (width : List Char → ℕ) (text : List Char)
    (maxWidth : ℕ) :
    (wrapText width text maxWidth).length ≤ 8 ∧
    ∀ l ∈ wrapText width text maxWidth,
      width l ≤ maxWidth ∨ (l ∈ splitWords text ∧ maxWidth < width l) := by
  constructor
  · rw [wrapText]
    exact List.length_take_le _ _
  · intro l hl
    have hl' : l ∈ wrapLoop width maxWidth (splitWords text) [] [] :=
      List.mem_of_mem_take hl
    have hmain := wrapLoop_mem width maxWidth (splitWords text)
      (splitWords text) [] [] (fun w hw => hw) (by simp) (Or.inl rfl) l hl'
    rcases hmain with h | h
    · exact Or.inl h
    · by_cases hw : width l ≤ maxWidth
      · exact Or.inl hw
      · exact Or.inr ⟨h, Nat.lt_of_not_le hw⟩

/-- C7 witness: wrapping "hola mundo" with character-count width 5. -/
theorem wrap_lines_fit_and_capped_witness :
    ("hola".data ∈ wrapText (fun l => l.length) "hola mundo".data 5) ∧
    (("hola".data).length ≤ 5 ∨
      ("hola".data ∈ splitWords "hola mundo".data ∧ 5 < ("hola".data).length)) :=
  ⟨by decide,
    (wrap_lines_fit_and_capped (fun l => l.length) "hola mundo".data 5).2
      "hola".data (by decide)⟩

/-- C8: for frame i of N ≥ 2 total frames, progress is p = i/(N−1) and the
three animation kinds produce exactly the stated transforms: fade has
alpha = clamp(255·min(1, p·1.2), 0, 255) (as the integer the code computes)
and no positional shift; slide has alpha 255 and vertical offset (1−p)·80;
zoom has alpha 255 and font scale 0.92 + p·0.10. -/
theorem anim_progress_transforms (frames i : ℕ) (h2 : 2 ≤ frames)
    (hi : i < frames) :
    animParams TextAnim.fade i frames =
      ⟨pyInt (min 255 (max 0 (255 * min 1 (((i : ℚ) / ((frames : ℚ) - 1)) * 1.2)))),
        0, 1⟩ ∧
    animParams TextAnim.slide i frames =
      ⟨255, pyInt ((1 - (i : ℚ) / ((frames : ℚ) - 1)) * 80), 1⟩ ∧
    animParams TextAnim.zoom i frames =
      ⟨255, 0, 0.92 + ((i : ℚ) / ((frames : ℚ) - 1)) * 0.10⟩ := by
  have h1 : 1 ≤ frames := le_trans (by norm_num) h2
  have hfr : ((frames - 1 : ℕ) : ℚ) = (frames : ℚ) - 1 := by
    rw [Nat.cast_sub h1, Nat.cast_one]
  have hmax : max 1 (frames - 1) = frames - 1 := max_eq_right (by omega)
  have hprog : progress i frames = (i : ℚ) / ((frames : ℚ) - 1) := by
    rw [progress, hmax, hfr]
  have hp0 : 0 ≤ (i : ℚ) / ((frames : ℚ) - 1) := by
    apply div_nonneg (Nat.cast_nonneg i)
    have hc : (2 : ℚ) ≤ (frames : ℚ) := by exact_mod_cast h2
    linarith
  refine ⟨?_, ?_, ?_⟩
  · simp only [animParams, hprog]
    have hp12 : (0 : ℚ) ≤ ((i : ℚ) / ((frames : ℚ) - 1)) * 1.2 :=
      mul_nonneg hp0 (by norm_num)
    have hq0 : (0 : ℚ) ≤ min 1 (((i : ℚ) / ((frames : ℚ) - 1)) * 1.2) :=
      le_min zero_le_one hp12
    have hq1 : min 1 (((i : ℚ) / ((frames : ℚ) - 1)) * 1.2) ≤ 1 :=
      min_le_left _ _
    have hB : (0 : ℚ) ≤ 255 * min 1 (((i : ℚ) / ((frames : ℚ) - 1)) * 1.2) :=
      mul_nonneg (by norm_num) hq0
    have hC : 255 * min 1 (((i : ℚ) / ((frames : ℚ) - 1)) * 1.2) ≤ 255 := by
      nlinarith
    rw [max_eq_right hp12, max_eq_right hB, min_eq_right hC]
  · simp only [animParams, hprog]
  · simp only [animParams, hprog]

/-- C8 witness at frame 12 of 24. -/
theorem anim_progress_transforms_witness :
    (2 ≤ 24) ∧ (12 < 24) ∧
    animParams TextAnim.zoom 12 24 =
      ⟨255, 0, 0.92 + (((12 : ℕ) : ℚ) / (((24 : ℕ) : ℚ) - 1)) * 0.10⟩ :=
  ⟨by norm_num, by norm_num,
    (anim_progress_transforms 24 12 (by norm_num) (by norm_num)).2.2⟩

/-- C10: with the fade animation, frame 0 is drawn with text alpha 0 for
every total frame count N ≥ 1 (progress i/max(1, N−1) is 0 at i = 0), and
its drop shadow alpha int(alpha·0.65) is 0 as well; consequently a request
whose clamped frame count is 1 — duration 0 — rendered with fade yields a
video in which every frame draws the caption fully transparent. -/
theorem fade_frame_zero_invisible (frames : ℕ) (h1 : 1 ≤ frames) (text : String)
    (style : Style) (bg : Bg) (em : EmojiMode) :
    (renderFrame TextAnim.fade 0 frames).params.alpha = 0 ∧
    ∀ f ∈ (makeReelsVideoStyled text 0 style bg TextAnim.fade em).frames,
      f.params.alpha = 0 ∧ f.shadowAlpha = 0 := by
  have hp : ∀ n : ℕ, progress 0 n = 0 := by
    intro n
    rw [progress]
    simp
  have haP : ∀ n : ℕ, (animParams TextAnim.fade 0 n).alpha = 0 := by
    intro n
    norm_num [animParams, hp n, pyInt, min_def, max_def]
  have halpha : ∀ n : ℕ, (renderFrame TextAnim.fade 0 n).params.alpha = 0 := by
    intro n
    simp [renderFrame, haP n]
  have hshadow : ∀ n : ℕ, (renderFrame TextAnim.fade 0 n).shadowAlpha = 0 := by
    intro n
    simp [renderFrame, haP n, pyInt]
  constructor
  · exact halpha frames
  · intro f hf
    simp only [makeReelsVideoStyled] at hf
    have hn : framesFor 0 = 1 := rfl
    rw [hn, show List.range 1 = [0] from rfl] at hf
    simp only [List.map_cons, List.map_nil, List.mem_singleton] at hf
    subst hf
    exact ⟨halpha 1, hshadow 1⟩

/-- C10 witness at 24 total frames / the duration-0 render. -/
theorem fade_frame_zero_invisible_witness :
    (1 ≤ 24) ∧ (renderFrame TextAnim.fade 0 24).params.alpha = 0 :=
  ⟨by norm_num,
    (fade_frame_zero_invisible 24 (by norm_num) "Dios" Style.inspirador
      Bg.gradient EmojiMode.auto).1⟩

end Corazon
